import Mathlib

/-!
# Verification of django-durable core semantics

Shallow embedding of the django-durable workflow engine
(`src/django_durable`): the retry/backoff computation, the history event
model, the replay-context operations (`start_activity`, `wait_activity`,
`wait_signal`), the stepper (`step_workflow`), the activity runner
(`execute_activity` failure handling), signal delivery, cascading
cancellation, and the dispatcher's heartbeat-timeout handling.

Python floats are modelled as rationals, timestamps as rationals,
JSON-compatible payload/result values as strings, and database rows as
Lean structures.  History lists are kept in primary-key (insertion)
order, matching `order_by('id')` on an append-only table.
-/

namespace DjangoDurable

/-! ## Retry policy and backoff (`django_durable/retry.py`) -/

/-- A retry-policy mapping as consumed by `compute_backoff` via
`policy.get(...)`: every field optional, faithful to a Python dict. -/
structure RetryPolicyMap where
  strategy : Option String := none
  initial_interval : Option ℚ := none
  backoff_coefficient : Option ℚ := none
  maximum_interval : Option ℚ := none
  jitter : Option ℚ := none
  maximum_attempts : Option Int := none
  non_retryable_error_types : Option (List String) := none
  deriving Repr, DecidableEq

/-- Model of `retry.compute_backoff(policy, attempt)`.  The single random draw
`random.uniform(-delta, delta)` of the jitter branch is supplied as the
extra argument `u`; it is only consulted when the policy's jitter is
non-zero, exactly as in the source. -/
def compute_backoff (policy : RetryPolicyMap) (attempt : Int) (u : ℚ) : ℚ :=
  let strat := policy.strategy.getD "exponential"
  let ini := policy.initial_interval.getD 1
  let interval :=
    if strat = "linear" then ini * attempt
    else
      let coeff := policy.backoff_coefficient.getD 2
      ini * coeff ^ (max 0 (attempt - 1)).toNat
  let interval :=
    match policy.maximum_interval with
    | some m => min interval m
    | none => interval
  let jitter := (policy.jitter.getD 0)
  let interval := if jitter ≠ 0 then interval + u else interval
  max interval 0

/-- The spec's formula for the no-jitter delay (spec §4.1): strategy
interval, clamped above by `maximum_interval` when present, then
`max(0, ·)`.  Exponential is the default strategy. -/
def backoffSpecFormula (policy : RetryPolicyMap) (attempt : Int) : ℚ :=
  let ini := policy.initial_interval.getD 1
  let raw :=
    if policy.strategy.getD "exponential" = "linear" then ini * attempt
    else ini * (policy.backoff_coefficient.getD 2) ^ (attempt - 1).toNat
  let clamped :=
    match policy.maximum_interval with
    | some m => min raw m
    | none => raw
  max 0 clamped

/-! ## C8: backoff formula -/

/-- C8: with jitter 0 and attempt ≥ 1, `compute_backoff` equals
`max(0, c)` where `c` is the strategy interval (exponential
`initial·coeff^(attempt−1)` by default, linear `initial·attempt`)
clamped above by `maximum_interval` when present. -/
theorem compute_backoff_eq_spec_formula (policy : RetryPolicyMap) (attempt : Int)
    (u : ℚ) (hj : policy.jitter.getD 0 = 0) (ha : 1 ≤ attempt) :
    compute_backoff policy attempt u = backoffSpecFormula policy attempt := by
  unfold compute_backoff backoffSpecFormula
  have hmax : max 0 (attempt - 1) = attempt - 1 := by omega
  rw [hj, hmax]
  simp only [ne_eq, not_true_eq_false, if_false]
  cases policy.maximum_interval <;> simp [max_comm]

/-- Witness for C8 at a concrete policy and attempt. -/
theorem compute_backoff_eq_spec_formula_witness :
    compute_backoff { maximum_interval := some 60 } 3 0
      = backoffSpecFormula { maximum_interval := some 60 } 3 :=
  compute_backoff_eq_spec_formula { maximum_interval := some 60 } 3 0 rfl (by norm_num)

/-! ## C9: backoff monotonicity -/

/-- C9 counterexample: with `backoff_coefficient = 1/2` (exponential,
jitter 0) the delay is strictly decreasing: attempt 1 gives 1 but
attempt 2 gives 1/2, refuting weak monotonicity as claimed for every
policy. -/
theorem compute_backoff_not_monotone_counterexample :
    compute_backoff { backoff_coefficient := some (1/2) } 1 0 = 1 ∧
    compute_backoff { backoff_coefficient := some (1/2) } 2 0 = 1/2 ∧
    ¬ compute_backoff { backoff_coefficient := some (1/2) } 1 0
        ≤ compute_backoff { backoff_coefficient := some (1/2) } 2 0 := by
  have hlin : ¬ ("exponential" = "linear") := by decide
  refine ⟨?_, ?_, ?_⟩ <;>
    · simp only [compute_backoff, Option.getD_none, Option.getD_some]
      simp only [if_neg hlin]; norm_num

/-- C9 (amended): for a policy with the exponential strategy, jitter 0,
and backoff coefficient ≥ 1 (the default is 2), the delay is weakly
increasing in the attempt number. -/
theorem compute_backoff_monotone (policy : RetryPolicyMap) (a b : Int) (u v : ℚ)
    (hstrat : policy.strategy.getD "exponential" = "exponential")
    (hj : policy.jitter.getD 0 = 0)
    (hc : 1 ≤ policy.backoff_coefficient.getD 2)
    (hab : a ≤ b) :
    compute_backoff policy a u ≤ compute_backoff policy b v := by
  unfold compute_backoff
  rw [hstrat, hj]
  simp only [ne_eq, not_true_eq_false, if_false]
  have hlin : ¬ ("exponential" = "linear") := by decide
  simp only [hlin, if_false]
  set ini := policy.initial_interval.getD 1 with hini
  set c := policy.backoff_coefficient.getD 2 with hcdef
  have hexp : c ^ (max 0 (a - 1)).toNat ≤ c ^ (max 0 (b - 1)).toNat := by
    apply pow_le_pow_right₀ hc
    have : max 0 (a - 1) ≤ max 0 (b - 1) := by omega
    omega
  have hpos : (0 : ℚ) < c ^ (max 0 (a - 1)).toNat := pow_pos (by linarith) _
  rcases le_or_lt 0 ini with hge | hlt
  · have hmul : ini * c ^ (max 0 (a - 1)).toNat ≤ ini * c ^ (max 0 (b - 1)).toNat :=
      mul_le_mul_of_nonneg_left hexp hge
    cases policy.maximum_interval with
    | none => exact max_le_max hmul (le_refl 0)
    | some m => exact max_le_max (min_le_min hmul (le_refl m)) (le_refl 0)
  · have ha0 : ini * c ^ (max 0 (a - 1)).toNat ≤ 0 :=
      mul_nonpos_of_nonpos_of_nonneg (le_of_lt hlt) (le_of_lt hpos)
    have hb0 : ini * c ^ (max 0 (b - 1)).toNat ≤ 0 :=
      mul_nonpos_of_nonpos_of_nonneg (le_of_lt hlt)
        (le_of_lt (pow_pos (by linarith) _))
    cases policy.maximum_interval with
    | none =>
        rw [max_eq_right ha0, max_eq_right hb0]
    | some m =>
        rw [max_eq_right (le_trans (min_le_left _ _) ha0),
          max_eq_right (le_trans (min_le_left _ _) hb0)]

/-- Witness for the amended C9 at a concrete policy and attempts. -/
theorem compute_backoff_monotone_witness :
    compute_backoff { maximum_interval := some 60 } 2 0
      ≤ compute_backoff { maximum_interval := some 60 } 5 0 :=
  compute_backoff_monotone { maximum_interval := some 60 } 2 5 0 0
    rfl rfl (by norm_num) (by norm_num)

/-! ## Data model (`django_durable/constants.py`, `django_durable/models.py`) -/

/-- Model of `constants.HistoryEventType`. -/
inductive EventType where
  | version_marker
  | activity_scheduled
  | activity_completed
  | activity_failed
  | activity_timed_out
  | activity_canceled
  | activity_wait
  | signal_enqueued
  | signal_wait
  | signal_consumed
  | child_workflow_scheduled
  | child_workflow_completed
  | child_workflow_failed
  | child_workflow_canceled
  | child_workflow_timed_out
  | child_workflow_wait
  | workflow_started
  | workflow_completed
  | workflow_failed
  | workflow_canceled
  | workflow_timed_out
  deriving Repr, DecidableEq

/-- Model of `WorkflowExecution.Status`. -/
inductive WfStatus where
  | pending
  | running
  | waiting
  | completed
  | failed
  | canceled
  | timedOut
  deriving Repr, DecidableEq

/-- Membership in `WorkflowExecution.TERMINAL_STATUSES`
(`is_terminal`, and the tuple used in `engine.execute_activity`,
`engine.cancel_workflow`, `engine.send_signal`). -/
def WfStatus.isTerminal : WfStatus → Bool
  | .completed => true
  | .failed => true
  | .canceled => true
  | .timedOut => true
  | _ => false

/-- Model of `ActivityTask.Status`. -/
inductive TaskStatus where
  | queued
  | running
  | completed
  | failed
  | timedOut
  deriving Repr, DecidableEq

/-- Value of `constants.SPECIAL_EVENT_POS`. -/
def SPECIAL_EVENT_POS : Int := 999998

/-- Value of `constants.FINAL_EVENT_POS`. -/
def FINAL_EVENT_POS : Int := 999999

/-- The JSON `details` of a history event, restricted to the keys the
engine reads and writes.  An absent key is `none`.  Payloads, results
and error strings are JSON-compatible values modelled as strings; the
activity input fingerprint is kept structured (see `input_fingerprint`). -/
structure Details where
  name : Option String := none
  payload : Option String := none
  enqueued_id : Option Nat := none
  result : Option String := none
  error : Option String := none
  reason : Option String := none
  activity_name : Option String := none
  inputFp : Option (List String × List (String × String)) := none
  timeout : Option String := none
  heartbeat_timeout : Option String := none
  retry_policy : Option RetryPolicyMap := none
  child_id : Option Nat := none
  deriving Repr, DecidableEq

/-- One `HistoryEvent` row.  `eid` is the autoincrement primary key. -/
structure HistoryEvent where
  eid : Nat
  etype : EventType
  pos : Int
  details : Details
  deriving Repr, DecidableEq

/-- One `WorkflowExecution` row together with its (append-only) history,
kept in primary-key order.  `nextEid` is the next autoincrement id. -/
structure ExecState where
  status : WfStatus := .pending
  history : List HistoryEvent := []
  nextEid : Nat := 0
  error : Option String := none
  result : Option String := none
  finishedSet : Bool := false
  deriving Repr, DecidableEq

/-- Model of `HistoryEvent.objects.create(...)` on one execution. -/
def appendEvent (st : ExecState) (t : EventType) (p : Int) (d : Details) : ExecState :=
  { st with
    history := st.history ++ [⟨st.nextEid, t, p, d⟩]
    nextEid := st.nextEid + 1 }

/-- Model of `objects.filter(...).order_by('id').last()`: the last event of the
history (primary-key order) satisfying the filter. -/
def lastWhere (h : List HistoryEvent) (f : HistoryEvent → Bool) : Option HistoryEvent :=
  (h.filter f).getLast?

/-- The `(execution, pos, type)` uniqueness constraint of
`HistoryEvent.Meta`, conditioned on `pos ≠ SPECIAL_EVENT_POS`, stated
for the history of one execution. -/
def uniqueConstraintOK (h : List HistoryEvent) : Prop :=
  ∀ e1 ∈ h, ∀ e2 ∈ h,
    e1.pos ≠ SPECIAL_EVENT_POS → e1.pos = e2.pos → e1.etype = e2.etype → e1.eid = e2.eid

instance (h : List HistoryEvent) : Decidable (uniqueConstraintOK h) := by
  unfold uniqueConstraintOK; infer_instance

/-! ## Replay context: `wait_activity` (`engine.Context.wait_activity`) -/

/-- Possible results of `Context.wait_activity`: return a result, raise
`ActivityError`, raise `ActivityTimeout`, raise the internal pause
exception (`NeedsPause`), or fail fatally on an unknown handle. -/
inductive WaitActivityOutcome where
  | result (v : Option String)
  | raiseActivityError (msg : String)
  | raiseActivityTimeout (msg : String)
  | suspend
  | unknownHandle
  deriving Repr, DecidableEq

/-- Model of `Context.wait_activity(handle)` as a function of the execution's
history.  Faithful to the source: the outcome query matches only
`ACTIVITY_COMPLETED`, `ACTIVITY_FAILED` and `ACTIVITY_TIMED_OUT` (not
`ACTIVITY_CANCELED`), and the function takes no timeout argument. -/
def wait_activity (h : List HistoryEvent) (handle : Int) : WaitActivityOutcome :=
  let pos := handle
  let evDone := lastWhere h fun e =>
    e.pos == pos &&
      (e.etype == .activity_completed || e.etype == .activity_failed ||
        e.etype == .activity_timed_out)
  match evDone with
  | some ev =>
      if ev.etype = .activity_failed then
        .raiseActivityError (ev.details.error.getD "activity_failed")
      else if ev.etype = .activity_timed_out then
        .raiseActivityTimeout (ev.details.error.getD "activity_timeout")
      else
        .result ev.details.result
  | none =>
      if h.any (fun e => e.pos == pos && e.etype == .activity_scheduled) then
        .suspend
      else
        .unknownHandle

/-- C4: the history of an activity that was scheduled at pos 1 and then
canceled (as the dispatcher's `_cancel_activity` records it). -/
def canceledActivityHistory : List HistoryEvent :=
  [⟨0, .activity_scheduled, 1, { activity_name := some "add" }⟩,
   ⟨1, .activity_canceled, 1, { error := some "workflow_canceled" }⟩]

/-- C4 (code divergence evaluated): on a history whose latest event at
the handle's pos is `ACTIVITY_CANCELED`, `wait_activity` suspends
instead of raising `ActivityError`; the claimed `timeout == 0 →
WaitActivityTimeout` branch does not exist either (the source function
takes no `timeout` parameter and `WaitActivityTimeout` is not defined in
`exceptions.py`), while the dispatch on COMPLETED / FAILED / TIMED_OUT
behaves as claimed. -/
theorem wait_activity_canceled_suspends :
    wait_activity canceledActivityHistory 1 = .suspend ∧
    (∀ v, wait_activity canceledActivityHistory 1 ≠ .raiseActivityError v) ∧
    wait_activity
        [⟨0, .activity_scheduled, 1, {}⟩,
         ⟨1, .activity_failed, 1, { error := some "boom" }⟩] 1
      = .raiseActivityError "boom" ∧
    wait_activity
        [⟨0, .activity_scheduled, 1, {}⟩,
         ⟨1, .activity_timed_out, 1, { error := some "activity_timeout" }⟩] 1
      = .raiseActivityTimeout "activity_timeout" ∧
    wait_activity
        [⟨0, .activity_scheduled, 1, {}⟩,
         ⟨1, .activity_completed, 1, { result := some "7" }⟩] 1
      = .result (some "7") ∧
    wait_activity [⟨0, .activity_scheduled, 1, {}⟩] 1 = .suspend ∧
    wait_activity [] 1 = .unknownHandle := by
  have h1 : wait_activity canceledActivityHistory 1 = .suspend := by decide
  refine ⟨h1, ?_, by decide, by decide, by decide, by decide, by decide⟩
  intro v h
  rw [h1] at h
  exact WaitActivityOutcome.noConfusion h

/-! ## Signal delivery (`engine.send_signal`,
`models.WorkflowExecution.enqueue_signal`) -/

/-- Model of `engine.send_signal(execution, name, payload)`: appends a
`SIGNAL_ENQUEUED` event **at pos 0** (as the source does), then sets the
status to PENDING unless the execution is terminal. -/
def send_signal (st : ExecState) (name : String) (payload : Option String) : ExecState :=
  let st := appendEvent st .signal_enqueued 0 { name := some name, payload := payload }
  if st.status.isTerminal then st
  else { st with status := .pending }

/-- Model of `models.WorkflowExecution.enqueue_signal(name, payload)`: appends a
`SIGNAL_ENQUEUED` event at `SPECIAL_EVENT_POS`, then sets the status to
PENDING unless the execution is terminal. -/
def enqueue_signal (st : ExecState) (name : String) (payload : Option String) : ExecState :=
  let st := appendEvent st .signal_enqueued SPECIAL_EVENT_POS
    { name := some name, payload := payload }
  if st.status.isTerminal then st
  else { st with status := .pending }

/-- C3 (code divergence evaluated): `models.enqueue_signal` behaves as
claimed — events land at `SPECIAL_EVENT_POS` (exempt from the
`(execution, pos, type)` uniqueness constraint), any number of signals
coexist, and the status is nudged to PENDING exactly when non-terminal —
but `engine.send_signal` appends at pos 0, so the second signal sent to
the same execution violates the uniqueness constraint. -/
theorem send_signal_pos_zero_breaks_uniqueness :
    -- engine.send_signal: both events at pos 0, constraint violated
    (send_signal (send_signal { status := .running } "go" (some "p1")) "go"
        (some "p2")).history.map HistoryEvent.pos = [0, 0] ∧
    ¬ uniqueConstraintOK
        (send_signal (send_signal { status := .running } "go" (some "p1")) "go"
          (some "p2")).history ∧
    -- models.enqueue_signal: SPECIAL_EVENT_POS, constraint satisfied
    (enqueue_signal (enqueue_signal { status := .running } "go" (some "p1")) "go"
        (some "p2")).history.map HistoryEvent.pos
      = [SPECIAL_EVENT_POS, SPECIAL_EVENT_POS] ∧
    uniqueConstraintOK
        (enqueue_signal (enqueue_signal { status := .running } "go" (some "p1")) "go"
          (some "p2")).history ∧
    (enqueue_signal (enqueue_signal { status := .running } "go" (some "p1")) "go"
        (some "p2")).history.map (fun e => (e.etype, e.details.name, e.details.payload))
      = [(.signal_enqueued, some "go", some "p1"),
         (.signal_enqueued, some "go", some "p2")] ∧
    -- status nudged to PENDING iff non-terminal
    (enqueue_signal { status := .running } "go" none).status = .pending ∧
    (enqueue_signal { status := .completed } "go" none).status = .completed := by
  refine ⟨by decide, by decide, by decide, by decide, by decide, by decide, by decide⟩

/-! ## Activity failure handling (`engine.execute_activity`, except branch) -/

/-- One `ActivityTask` row, restricted to the fields read and written by
the failure branch of `execute_activity` and by the dispatcher's
heartbeat scan. -/
structure TaskRow where
  status : TaskStatus := .queued
  pos : Int := 0
  attempt : Int := 0
  retry_policy : RetryPolicyMap := {}
  heartbeat_timeout : Option ℚ := none
  heartbeat_at : Option ℚ := none
  started_at : Option ℚ := none
  error : Option String := none
  after_time : ℚ := 0
  finishedSet : Bool := false
  deriving Repr, DecidableEq

/-- Lines 539–549 of `engine.execute_activity`: the retry decision.
`errorType` is `type(e).__name__`, `isUnknown` is
`isinstance(e, UnknownActivityError)`. -/
def shouldRetry (policy : RetryPolicyMap) (attempt : Int) (errorType : String)
    (isUnknown : Bool) : Bool :=
  let nonRetry := policy.non_retryable_error_types.getD []
  let maxAttempts := policy.maximum_attempts.getD 0
  let s := !(nonRetry.contains errorType) && (maxAttempts == 0 || attempt < maxAttempts)
  if isUnknown then false else s

/-- The except branch of `engine.execute_activity`: sets `task.error`,
then either re-queues the task with `after_time = now + compute_backoff`
(appending no history event) or marks it FAILED and appends
`ACTIVITY_FAILED`.  Returns the updated task row and the list of
appended history events; `u` is the jitter draw forwarded to
`compute_backoff`. -/
def execute_activity_on_error (policy : RetryPolicyMap) (task : TaskRow)
    (errorType : String) (isUnknown : Bool) (errMsg : String) (now u : ℚ) :
    TaskRow × List HistoryEvent :=
  let task := { task with error := some errMsg }
  if shouldRetry policy task.attempt errorType isUnknown then
    ({ task with
        status := .queued
        after_time := now + compute_backoff policy task.attempt u }, [])
  else
    ({ task with status := .failed, finishedSet := true },
      [⟨0, .activity_failed, task.pos, { error := some errMsg }⟩])

/-- C6 counterexample: with `maximum_attempts = -1` (representable, since
the field is a plain int) and a retryable error on attempt 1, the code
marks the task FAILED and appends `ACTIVITY_FAILED`, although the
claim's condition — non-retryable type, or `maximum_attempts > 0 ∧
attempt ≥ maximum_attempts`, or unknown activity — is false. -/
theorem execute_activity_retry_counterexample :
    (execute_activity_on_error { maximum_attempts := some (-1) }
        { status := .running, attempt := 1 } "ValueError" false "boom" 0 0).1.status
      = .failed ∧
    ¬ ("ValueError"
          ∈ (RetryPolicyMap.non_retryable_error_types
              { maximum_attempts := some (-1) }).getD [] ∨
        (0 < (RetryPolicyMap.maximum_attempts
              { maximum_attempts := some (-1) }).getD 0 ∧
          (RetryPolicyMap.maximum_attempts
              { maximum_attempts := some (-1) }).getD 0 ≤ 1) ∨
        False) := by
  refine ⟨by decide, by decide⟩

/-- C6 (amended): the failing task is marked FAILED with an
`ACTIVITY_FAILED` event appended if and only if the error type is
non-retryable, or `maximum_attempts ≠ 0` and the attempt count has
reached it, or the error is `UnknownActivityError`; otherwise it is
re-queued with `after_time = now + compute_backoff(policy, attempt)` and
no history event is appended. -/
theorem execute_activity_on_error_spec (policy : RetryPolicyMap) (task : TaskRow)
    (errorType : String) (isUnknown : Bool) (errMsg : String) (now u : ℚ) :
    ((execute_activity_on_error policy task errorType isUnknown errMsg now u).1.status
        = .failed
      ↔ (errorType ∈ policy.non_retryable_error_types.getD [] ∨
          (policy.maximum_attempts.getD 0 ≠ 0 ∧
            policy.maximum_attempts.getD 0 ≤ task.attempt) ∨
          isUnknown = true)) ∧
    ((execute_activity_on_error policy task errorType isUnknown errMsg now u).1.status
        = .failed
      → (execute_activity_on_error policy task errorType isUnknown errMsg now u).2
          = [⟨0, .activity_failed, task.pos, { error := some errMsg }⟩]) ∧
    ((execute_activity_on_error policy task errorType isUnknown errMsg now u).1.status
        ≠ .failed
      → (execute_activity_on_error policy task errorType isUnknown errMsg now u)
          = ({ task with
                status := .queued
                error := some errMsg
                after_time := now + compute_backoff policy task.attempt u }, [])) := by
  have hiff :
      shouldRetry policy task.attempt errorType isUnknown = false
        ↔ (errorType ∈ policy.non_retryable_error_types.getD [] ∨
            (policy.maximum_attempts.getD 0 ≠ 0 ∧
              policy.maximum_attempts.getD 0 ≤ task.attempt) ∨
            isUnknown = true) := by
    unfold shouldRetry
    cases isUnknown
    · simp only [Bool.false_eq_true, if_false, or_false]
      simp [List.elem_iff, Int.not_lt, or_and_left]
      tauto
    · simp
  refine ⟨?_, ?_, ?_⟩
  · rw [← hiff]
    unfold execute_activity_on_error
    cases hs : shouldRetry policy task.attempt errorType isUnknown
    · simp [hs]
    · simp [hs]
  · intro h
    unfold execute_activity_on_error at h ⊢
    cases hs : shouldRetry policy task.attempt errorType isUnknown
    · simp [hs]
    · simp [hs] at h
  · intro h
    unfold execute_activity_on_error at h ⊢
    cases hs : shouldRetry policy task.attempt errorType isUnknown
    · simp [hs] at h
    · simp [hs]

/-- Witness for the amended C6: a retryable failure on attempt 1 of 3 is
re-queued with the backoff delay and no event. -/
theorem execute_activity_on_error_spec_witness :
    (execute_activity_on_error { maximum_attempts := some 3 }
          { status := .running, attempt := 1 } "ValueError" false "boom" 10 0).1.status
        ≠ .failed ∧
      (execute_activity_on_error { maximum_attempts := some 3 }
          { status := .running, attempt := 1 } "ValueError" false "boom" 10 0)
        = ({ status := .queued, pos := 0, attempt := 1, error := some "boom",
              after_time := 10 + compute_backoff { maximum_attempts := some 3 } 1 0,
              finishedSet := false }, []) := by
  have h := execute_activity_on_error_spec { maximum_attempts := some 3 }
    { status := .running, attempt := 1 } "ValueError" false "boom" 10 0
  have hne : (execute_activity_on_error { maximum_attempts := some 3 }
      { status := .running, attempt := 1 } "ValueError" false "boom" 10 0).1.status
      ≠ .failed := by
    intro hf
    have := h.1.mp hf
    simp at this
  exact ⟨hne, h.2.2 hne⟩

/-! ## Dispatcher heartbeat scan
(`management/commands/durable_worker.py`, `_run_worker_loop` step 0c) -/

/-- One iteration of the dispatcher's heartbeat scan applied to one
activity task and its owning execution (`durable_worker.py` lines
353–432).  The scan selects RUNNING tasks with a heartbeat timeout; when
the heartbeat is stale it either re-queues the task with backoff or, with
the retry budget exhausted, marks the task TIMED_OUT, appends
`ACTIVITY_TIMED_OUT` and `WORKFLOW_FAILED` events and **unconditionally**
sets the execution's status to FAILED.  The parent notification
(`_notify_parent`) only touches the parent row with a
PENDING/RUNNING-guarded update and is elided here.  `u` is the jitter
draw forwarded to `compute_backoff`. -/
def worker_heartbeat_scan_step (wf : ExecState) (task : TaskRow) (now u : ℚ) :
    ExecState × TaskRow :=
  if task.status = .running ∧ task.heartbeat_timeout ≠ none then
    let hbAt := task.heartbeat_at.getD (task.started_at.getD now)
    match task.heartbeat_timeout with
    | none => (wf, task)
    | some ht =>
      if hbAt + ht ≤ now then
        let task : TaskRow := { task with error := some "heartbeat_timeout" }
        let maxAttempts := task.retry_policy.maximum_attempts.getD 0
        let currAttempt : Int := if task.attempt = 0 then 1 else task.attempt
        if maxAttempts = 0 ∨ currAttempt < maxAttempts then
          let delay := compute_backoff task.retry_policy currAttempt u
          (wf, { task with status := .queued, after_time := now + delay })
        else
          let task := { task with status := .timedOut, finishedSet := true }
          let wf := appendEvent wf .activity_timed_out task.pos
            { error := some "heartbeat_timeout" }
          let wf := appendEvent wf .workflow_failed SPECIAL_EVENT_POS
            { error := some "heartbeat_timeout" }
          let wf := { wf with
            status := WfStatus.failed,
            error := some "heartbeat_timeout",
            finishedSet := true }
          (wf, task)
      else (wf, task)
  else (wf, task)

/-- A CANCELED execution (terminal), as `cancel_workflow` leaves it. -/
def canceledExec : ExecState :=
  { status := .canceled, error := some "Canceled: test", finishedSet := true }

/-- An orphaned RUNNING activity task of `canceledExec` (left RUNNING by
a dispatcher crash; `cancel_workflow` only fails QUEUED tasks), with an
expired heartbeat and an exhausted retry budget. -/
def orphanRunningTask : TaskRow :=
  { status := .running, pos := 1, attempt := 1,
    retry_policy := { maximum_attempts := some 1 },
    heartbeat_timeout := some 1, heartbeat_at := some 0, started_at := some 0 }

/-- C1 (code divergence evaluated): running the dispatcher's heartbeat
scan over a CANCELED (terminal) execution that still owns a RUNNING
activity task with a stale heartbeat and exhausted retries rewrites the
execution's status from CANCELED to FAILED — a later operation changing
a terminal status, contradicting sticky terminality. -/
theorem heartbeat_scan_overwrites_terminal_status :
    canceledExec.status = .canceled ∧
    canceledExec.status.isTerminal = true ∧
    (worker_heartbeat_scan_step canceledExec orphanRunningTask 10 0).1.status
      = .failed ∧
    WfStatus.failed ≠ WfStatus.canceled := by
  refine ⟨rfl, rfl, ?_, by decide⟩
  simp [worker_heartbeat_scan_step, canceledExec, orphanRunningTask, appendEvent]

/-! ## Stepper (`engine.step_workflow`, `engine._run_workflow_once`,
`engine._notify_parent`) -/

/-- The behaviour of one invocation of the registered workflow function:
it returns a (possibly `None`) value, raises the internal `NeedsPause`,
or raises any other exception. -/
inductive FnOutcome where
  | ret (v : Option String)
  | pause
  | raiseErr (msg : String)
  deriving Repr, DecidableEq

/-- Model of `engine._run_workflow_once`: runs the workflow function, catching
`NeedsPause` and returning Python `None` for it — so a paused run and a
function that returns `None` are indistinguishable to the caller. -/
def run_workflow_once : FnOutcome → Except String (Option String)
  | .ret v => .ok v
  | .pause => .ok none
  | .raiseErr m => .error m

/-- The state `step_workflow` operates on: the stepped execution, its
optional parent row, its `parent_pos`, and its id (used as `child_id` in
parent notifications). -/
structure StepWorld where
  wf : ExecState := {}
  parent : Option ExecState := none
  parentPos : Option Int := none
  wfId : Nat := 0
  deriving Repr, DecidableEq

/-- Model of `engine._notify_parent`: appends an event at `parent_pos or 0` to the
parent's history with `child_id` merged into the details, then nudges the
parent to PENDING only if it is PENDING or RUNNING. -/
def notify_parent (w : StepWorld) (t : EventType) (d : Details) : StepWorld :=
  match w.parent with
  | none => w
  | some p =>
      let p := appendEvent p t (w.parentPos.getD 0) { d with child_id := some w.wfId }
      let p :=
        if p.status = .pending ∨ p.status = .running then { p with status := .pending }
        else p
      { w with parent := some p }

/-- Model of `engine.step_workflow`: returns unchanged unless the execution is
PENDING (the select-for-update / DoesNotExist early returns are the
identity); ensures a `WORKFLOW_STARTED` event exists; then branches on
the outcome of `_run_workflow_once`.  `details.input` of the started
event carries the execution's input. -/
def step_workflow (w : StepWorld) (fn : FnOutcome) : StepWorld :=
  if w.wf.status ≠ .pending then w
  else
    let wf :=
      if w.wf.history.any (fun e => e.etype == .workflow_started) then w.wf
      else appendEvent w.wf .workflow_started 0 {}
    match run_workflow_once fn with
    | .error m =>
        let wf := appendEvent wf .workflow_failed FINAL_EVENT_POS { error := some m }
        let wf := { wf with status := .failed, error := some m, finishedSet := true }
        notify_parent { w with wf := wf } .child_workflow_failed { error := some m }
    | .ok none =>
        { w with wf := { wf with status := .running } }
    | .ok (some v) =>
        let wf := appendEvent wf .workflow_completed FINAL_EVENT_POS { result := some v }
        let wf := { wf with status := .completed, result := some v, finishedSet := true }
        notify_parent { w with wf := wf } .child_workflow_completed { result := some v }

theorem notify_parent_wf (w : StepWorld) (t : EventType) (d : Details) :
    (notify_parent w t d).wf = w.wf := by
  unfold notify_parent
  cases w.parent <;> rfl

theorem notify_parent_some (w : StepWorld) (t : EventType) (d : Details)
    (p : ExecState) (h : w.parent = some p) :
    ∃ p2, (notify_parent w t d).parent = some p2 ∧
      p2.history = p.history ++
        [⟨p.nextEid, t, w.parentPos.getD 0, { d with child_id := some w.wfId }⟩] ∧
      ((p.status = .pending ∨ p.status = .running) → p2.status = .pending) := by
  unfold notify_parent
  rw [h]
  by_cases hc : p.status = .pending ∨ p.status = .running
  · exact ⟨_, rfl, by simp [appendEvent, if_pos hc], fun _ => by simp [appendEvent, if_pos hc]⟩
  · refine ⟨_, rfl, ?_, fun hh => absurd hh hc⟩
    simp [appendEvent, if_neg hc]

/-- C5 counterexample: a PENDING workflow whose function **returns the
value `None`** is left RUNNING with no `WORKFLOW_COMPLETED` event and no
stored result — the code cannot distinguish a `None` return from a
suspension, so "the workflow function returns a value" does not imply
completion as claimed. -/
theorem step_workflow_return_none_counterexample :
    (step_workflow { wf := { status := .pending } } (.ret none)).wf.status
      = .running ∧
    ((step_workflow { wf := { status := .pending } } (.ret none)).wf.history.any
        (fun e => e.etype == .workflow_completed)) = false ∧
    (step_workflow { wf := { status := .pending } } (.ret none)).wf.result = none ∧
    (step_workflow { wf := { status := .pending } } (.ret none)).wf.finishedSet
      = false := by
  refine ⟨by decide, by decide, by decide, by decide⟩

/-- C5 (amended): for a PENDING execution, `step_workflow` has exactly
three outcomes — a **non-None** return value appends
`WORKFLOW_COMPLETED` at `FINAL_EVENT_POS` carrying the result, sets
COMPLETED with `finished_at` and result stored and notifies the parent
(when one exists) with `CHILD_WORKFLOW_COMPLETED` at `parent_pos`; a
suspension **or a `None` return** sets RUNNING and appends no terminal
event; any other exception appends `WORKFLOW_FAILED` at
`FINAL_EVENT_POS`, sets FAILED and notifies the parent with
`CHILD_WORKFLOW_FAILED`. -/
theorem step_workflow_spec (w : StepWorld) (fn : FnOutcome)
    (hp : w.wf.status = .pending) :
    (∀ v, fn = .ret (some v) →
      (step_workflow w fn).wf.status = .completed ∧
      (step_workflow w fn).wf.result = some v ∧
      (step_workflow w fn).wf.finishedSet = true ∧
      ((step_workflow w fn).wf.history.filter
          (fun e => e.etype == .workflow_completed)).map
          (fun e => (e.pos, e.details.result))
        = (w.wf.history.filter (fun e => e.etype == .workflow_completed)).map
            (fun e => (e.pos, e.details.result)) ++ [(FINAL_EVENT_POS, some v)] ∧
      (∀ p, w.parent = some p →
        ∃ p2, (step_workflow w fn).parent = some p2 ∧
          p2.history = p.history ++
            [⟨p.nextEid, .child_workflow_completed, w.parentPos.getD 0,
              { result := some v, child_id := some w.wfId }⟩] ∧
          ((p.status = .pending ∨ p.status = .running) → p2.status = .pending))) ∧
    ((fn = .pause ∨ fn = .ret none) →
      (step_workflow w fn).wf.status = .running ∧
      ((step_workflow w fn).wf.history.filter
          (fun e => e.etype == .workflow_completed || e.etype == .workflow_failed))
        = (w.wf.history.filter
            (fun e => e.etype == .workflow_completed || e.etype == .workflow_failed)) ∧
      (step_workflow w fn).wf.result = w.wf.result ∧
      (step_workflow w fn).parent = w.parent) ∧
    (∀ m, fn = .raiseErr m →
      (step_workflow w fn).wf.status = .failed ∧
      (step_workflow w fn).wf.error = some m ∧
      (step_workflow w fn).wf.finishedSet = true ∧
      ((step_workflow w fn).wf.history.filter
          (fun e => e.etype == .workflow_failed)).map
          (fun e => (e.pos, e.details.error))
        = (w.wf.history.filter (fun e => e.etype == .workflow_failed)).map
            (fun e => (e.pos, e.details.error)) ++ [(FINAL_EVENT_POS, some m)] ∧
      (∀ p, w.parent = some p →
        ∃ p2, (step_workflow w fn).parent = some p2 ∧
          p2.history = p.history ++
            [⟨p.nextEid, .child_workflow_failed, w.parentPos.getD 0,
              { error := some m, child_id := some w.wfId }⟩] ∧
          ((p.status = .pending ∨ p.status = .running) → p2.status = .pending))) := by
  have hnp : ¬ (w.wf.status ≠ .pending) := by simp [hp]
  refine ⟨?_, ?_, ?_⟩
  · rintro v rfl
    simp only [step_workflow, hnp, if_false, run_workflow_once]
    refine ⟨?_, ?_, ?_, ?_, ?_⟩
    · rw [notify_parent_wf]
    · rw [notify_parent_wf]
    · rw [notify_parent_wf]
    · rw [notify_parent_wf]
      cases hs : w.wf.history.any (fun e => e.etype == .workflow_started) <;>
        simp [hs, appendEvent, List.filter_append]
    · intro p hpar
      exact notify_parent_some _ _ _ p hpar
  · rintro (rfl | rfl) <;>
      · refine ⟨?_, ?_, ?_, ?_⟩ <;>
          · simp only [step_workflow, hnp, if_false, run_workflow_once]
            try rfl
            try (cases hs : w.wf.history.any (fun e => e.etype == .workflow_started) <;>
              simp [hs, appendEvent, List.filter_append])
  · rintro m rfl
    simp only [step_workflow, hnp, if_false, run_workflow_once]
    refine ⟨?_, ?_, ?_, ?_, ?_⟩
    · rw [notify_parent_wf]
    · rw [notify_parent_wf]
    · rw [notify_parent_wf]
    · rw [notify_parent_wf]
      cases hs : w.wf.history.any (fun e => e.etype == .workflow_started) <;>
        simp [hs, appendEvent, List.filter_append]
    · intro p hpar
      exact notify_parent_some _ _ _ p hpar

/-- Witness for the amended C5: stepping a fresh PENDING execution with a
parent, where the function returns `"42"`. -/
theorem step_workflow_spec_witness :
    (step_workflow
        { wf := { status := .pending }, parent := some { status := .running },
          parentPos := some 3, wfId := 7 } (.ret (some "42"))).wf.status
      = .completed ∧
    ∃ p2, (step_workflow
        { wf := { status := .pending }, parent := some { status := .running },
          parentPos := some 3, wfId := 7 } (.ret (some "42"))).parent = some p2 ∧
      p2.history = [⟨0, .child_workflow_completed, 3,
        { result := some "42", child_id := some 7 }⟩] ∧
      p2.status = .pending := by
  have h := (step_workflow_spec
    { wf := { status := .pending }, parent := some { status := .running },
      parentPos := some 3, wfId := 7 } (.ret (some "42")) rfl).1 "42" rfl
  obtain ⟨p2, hp2, hhist, hstat⟩ := h.2.2.2.2 { status := .running } rfl
  exact ⟨h.1, p2, hp2, by simpa using hhist, hstat (Or.inr rfl)⟩

/-! ## Replay context: `start_activity` (`engine.Context.start_activity`) -/

/-- Lexicographic order on key characters (by code point). -/
def keyLeChars : List Char → List Char → Bool
  | [], _ => true
  | _ :: _, [] => false
  | a :: as, b :: bs =>
      if a.toNat < b.toNat then true
      else if b.toNat < a.toNat then false
      else keyLeChars as bs

/-- Lexicographic order on keys. -/
def keyLe (a b : String) : Bool := keyLeChars a.data b.data

/-- Keyed insertion (ascending keys) for the canonical kwargs order. -/
def insertByKey (x : String × String) : List (String × String) → List (String × String)
  | [] => [x]
  | y :: ys => if keyLe x.1 y.1 then x :: y :: ys else y :: insertByKey x ys

/-- Sort kwargs by key, modelling the `sort_keys=True` canonical JSON. -/
def sortByKey : List (String × String) → List (String × String)
  | [] => []
  | x :: xs => insertByKey x (sortByKey xs)

/-- Model of the canonical JSON fingerprint computed with sorted keys: the
canonical fingerprint of an activity call; kwargs canonicalised by key
order, so it depends only on the key→value mapping. -/
def input_fingerprint (args : List String) (kwargs : List (String × String)) :
    List String × List (String × String) :=
  (args, sortByKey kwargs)

/-- What the registry attaches to an activity callable: the metadata
`getattr(fn, '_durable_timeout' / '_durable_heartbeat_timeout' /
'_durable_retry_policy', None)`.  `none` for the whole record models an
unregistered name. -/
structure RegActivity where
  timeout : Option String := none
  heartbeat_timeout : Option String := none
  retry_policy : Option RetryPolicyMap := none
  deriving Repr, DecidableEq

/-- An `ActivityTask` row as created by `start_activity` (the
time-derived columns `after_time` and `expires_at` are elided; the
claims below do not mention them). -/
structure ScheduledTask where
  activity_name : String
  pos : Int
  args : List String
  kwargs : List (String × String)
  max_attempts : Int
  retry_policy : RetryPolicyMap
  heartbeat_timeout : Option String
  deriving Repr, DecidableEq

/-- Result of `Context.start_activity`: the returned handle with the
updated history and task table, or a raised `NondeterminismError`. -/
inductive StartActivityResult where
  | ok (pos : Int) (st : ExecState) (tasks : List ScheduledTask)
  | nondetError
  deriving Repr, DecidableEq

/-- Model of `kwargs.pop('schedule_to_close_timeout', None)` then
`kwargs.pop('heartbeat_timeout', None)`: the two popped values and the
remaining kwargs. -/
def popTimeoutKwargs (kwargs : List (String × String)) :
    Option String × Option String × List (String × String) :=
  let timeout := kwargs.lookup "schedule_to_close_timeout"
  let kwargs := kwargs.eraseP fun kv => kv.1 == "schedule_to_close_timeout"
  let heartbeat := kwargs.lookup "heartbeat_timeout"
  let kwargs := kwargs.eraseP fun kv => kv.1 == "heartbeat_timeout"
  (timeout, heartbeat, kwargs)

/-- Model of the resolved policy dict: the registered policy when present, else a dict with only `maximum_attempts = 0`. -/
def resolvedPolicy (reg : Option RegActivity) : RetryPolicyMap :=
  match reg with
  | some r =>
      match r.retry_policy with
      | some p => p
      | none => { maximum_attempts := some 0 }
  | none => { maximum_attempts := some 0 }

/-- Model of the timeout fallback: the popped kwarg when present, else the registry default. -/
def resolvedTimeout (reg : Option RegActivity) (t0 : Option String) : Option String :=
  match t0 with
  | some t => some t
  | none => match reg with | some r => r.timeout | none => none

/-- Same fallback for `heartbeat_timeout`. -/
def resolvedHeartbeat (reg : Option RegActivity) (hb0 : Option String) : Option String :=
  match hb0 with
  | some hb => some hb
  | none => match reg with | some r => r.heartbeat_timeout | none => none

/-- The details of the `ACTIVITY_SCHEDULED` event `start_activity`
creates. -/
def scheduledDetails (reg : Option RegActivity) (name : String)
    (fp : List String × List (String × String))
    (kwargs : List (String × String)) : Details :=
  { activity_name := some name, inputFp := some fp,
    timeout := resolvedTimeout reg (popTimeoutKwargs kwargs).1,
    heartbeat_timeout := resolvedHeartbeat reg (popTimeoutKwargs kwargs).2.1,
    retry_policy := some (resolvedPolicy reg) }

/-- The `ActivityTask` row `start_activity` creates. -/
def scheduledTask (reg : Option RegActivity) (pos : Int) (name : String)
    (args : List String) (kwargs : List (String × String)) : ScheduledTask :=
  ⟨name, pos, args, (popTimeoutKwargs kwargs).2.2,
    (resolvedPolicy reg).maximum_attempts.getD 0, resolvedPolicy reg,
    resolvedHeartbeat reg (popTimeoutKwargs kwargs).2.1⟩

/-- Model of `engine.Context.start_activity`.  The input fingerprint is computed
from args and the **full** kwargs before `schedule_to_close_timeout` and
`heartbeat_timeout` are popped; the popped kwargs are what the created
`ActivityTask` stores.  `reg` is `register.activities.get(name)`. -/
def start_activity (reg : Option RegActivity) (st : ExecState)
    (tasks : List ScheduledTask) (pos : Int) (name : String)
    (args : List String) (kwargs : List (String × String)) : StartActivityResult :=
  let ev := lastWhere st.history fun e =>
    e.pos == pos && e.etype == .activity_scheduled
  let inputJson := input_fingerprint args kwargs
  match ev with
  | some e =>
      if e.details.activity_name ≠ some name ∨ e.details.inputFp ≠ some inputJson then
        .nondetError
      else .ok pos st tasks
  | none =>
      let st := appendEvent st .activity_scheduled pos
        (scheduledDetails reg name inputJson kwargs)
      .ok pos st (tasks ++ [scheduledTask reg pos name args kwargs])

/-- C10: when no `ACTIVITY_SCHEDULED` event exists at this pos yet,
`start_activity` records the fingerprint of args and the **full** kwargs
(`schedule_to_close_timeout` / `heartbeat_timeout` included) while the
created `ActivityTask` stores kwargs with those two keys popped;
replaying the identical call then matches the stored fingerprint and
returns the same pos with no state change, and any call whose
fingerprint differs (e.g. a changed `schedule_to_close_timeout`) raises
`NondeterminismError`. -/
theorem start_activity_fingerprint_spec (reg : Option RegActivity) (st : ExecState)
    (tasks : List ScheduledTask) (pos : Int) (name : String)
    (args : List String) (kwargs : List (String × String))
    (hno : lastWhere st.history
      (fun e => e.pos == pos && e.etype == .activity_scheduled) = none) :
    ∃ st2 tasks2,
      start_activity reg st tasks pos name args kwargs = .ok pos st2 tasks2 ∧
      ((lastWhere st2.history
          (fun e => e.pos == pos && e.etype == .activity_scheduled)).map
          (fun e => e.details.inputFp))
        = some (some (input_fingerprint args kwargs)) ∧
      (∃ t : ScheduledTask, tasks2 = tasks ++ [t] ∧
        t.kwargs = (kwargs.eraseP
            (fun kv => kv.1 == "schedule_to_close_timeout")).eraseP
            (fun kv => kv.1 == "heartbeat_timeout")) ∧
      start_activity reg st2 tasks2 pos name args kwargs = .ok pos st2 tasks2 ∧
      (∀ kwargs2, input_fingerprint args kwargs2 ≠ input_fingerprint args kwargs →
        start_activity reg st2 tasks2 pos name args kwargs2 = .nondetError) := by
  have hnil : st.history.filter
      (fun e => e.pos == pos && e.etype == .activity_scheduled) = [] := by
    have h := hno
    unfold lastWhere at h
    cases hf : st.history.filter
        (fun e => e.pos == pos && e.etype == .activity_scheduled) with
    | nil => rfl
    | cons a l => rw [hf] at h; simp at h
  have hrun : start_activity reg st tasks pos name args kwargs
      = .ok pos
        (appendEvent st .activity_scheduled pos
          (scheduledDetails reg name (input_fingerprint args kwargs) kwargs))
        (tasks ++ [scheduledTask reg pos name args kwargs]) := by
    unfold start_activity
    rw [hno]
  set st2 := appendEvent st .activity_scheduled pos
    (scheduledDetails reg name (input_fingerprint args kwargs) kwargs) with hst2
  set tasks2 := tasks ++ [scheduledTask reg pos name args kwargs] with htasks2
  have hlast : lastWhere st2.history
      (fun e => e.pos == pos && e.etype == .activity_scheduled)
      = some ⟨st.nextEid, .activity_scheduled, pos,
          scheduledDetails reg name (input_fingerprint args kwargs) kwargs⟩ := by
    rw [hst2]
    simp [lastWhere, appendEvent, List.filter_append, hnil]
  refine ⟨st2, tasks2, hrun, ?_, ?_, ?_, ?_⟩
  · rw [hlast]
    simp [scheduledDetails]
  · exact ⟨scheduledTask reg pos name args kwargs, rfl,
      by simp [scheduledTask, popTimeoutKwargs]⟩
  · unfold start_activity
    rw [hlast]
    simp [scheduledDetails]
  · intro kwargs2 hne
    unfold start_activity
    rw [hlast]
    simp only [scheduledDetails, ne_eq, Option.some.injEq]
    rw [if_pos]
    right
    intro h
    exact hne h.symm

/-- Witness for C10: a concrete call passing both timeout kwargs; the
stored fingerprint keeps them, the task kwargs drop them, replay
succeeds, and a changed `schedule_to_close_timeout` is a
nondeterminism error. -/
theorem start_activity_fingerprint_spec_witness :
    (lastWhere (ExecState.history {})
      (fun e => e.pos == 0 && e.etype == .activity_scheduled) = none) ∧
    ∃ st2 tasks2,
      start_activity none {} [] 0 "add"
          ["1"] [("b", "2"), ("schedule_to_close_timeout", "5"),
            ("heartbeat_timeout", "7")] = .ok 0 st2 tasks2 ∧
      ((lastWhere st2.history
          (fun e => e.pos == 0 && e.etype == .activity_scheduled)).map
          (fun e => e.details.inputFp))
        = some (some (input_fingerprint ["1"]
            [("b", "2"), ("schedule_to_close_timeout", "5"),
              ("heartbeat_timeout", "7")])) ∧
      (∃ t : ScheduledTask, tasks2 = [] ++ [t] ∧ t.kwargs = [("b", "2")]) ∧
      start_activity none st2 tasks2 0 "add"
          ["1"] [("b", "2"), ("schedule_to_close_timeout", "5"),
            ("heartbeat_timeout", "7")] = .ok 0 st2 tasks2 ∧
      start_activity none st2 tasks2 0 "add"
          ["1"] [("b", "2"), ("schedule_to_close_timeout", "9"),
            ("heartbeat_timeout", "7")] = .nondetError := by
  have hno : lastWhere (ExecState.history {})
      (fun e => e.pos == 0 && e.etype == .activity_scheduled) = none := by decide
  obtain ⟨st2, tasks2, h1, h2, ⟨t, ht, htk⟩, h4, h5⟩ :=
    start_activity_fingerprint_spec none {} [] 0 "add"
      ["1"] [("b", "2"), ("schedule_to_close_timeout", "5"), ("heartbeat_timeout", "7")]
      hno
  refine ⟨hno, st2, tasks2, h1, h2, ⟨t, ht, ?_⟩, h4,
    h5 [("b", "2"), ("schedule_to_close_timeout", "9"), ("heartbeat_timeout", "7")]
      (by decide)⟩
  rw [htk]
  decide

/-! ## Cascading cancellation (`engine.cancel_workflow`) -/

/-- Python truthiness of an optional reason string (`if reason:` /
`reason or 'parent_canceled'`): `None` and the empty string are falsy. -/
def truthy : Option String → Bool
  | none => false
  | some s => !(s == "")

/-- Lines 608–613 of `engine.cancel_workflow`: `error = error or ''`,
then, when a reason is given, append `'Canceled: <reason>'` on a new
line when an error is already present. -/
def cancelErrorUpdate (old : Option String) (reason : Option String) : Option String :=
  let e := old.getD ""
  if truthy reason then
    some ((if e ≠ "" then e ++ "\n" else "") ++ "Canceled: " ++ reason.getD "")
  else some e

/-- The per-execution effect of `cancel_workflow` on a non-terminal
execution: append `WORKFLOW_CANCELED` at `SPECIAL_EVENT_POS` (details
carry the reason only when truthy), set CANCELED, update the error,
set `finished_at`.  (Failing the execution's QUEUED activity tasks and
the guarded parent notification are outside the per-node state modelled
here.) -/
def cancelSelf (st : ExecState) (reason : Option String) : ExecState :=
  let st2 := appendEvent st .workflow_canceled SPECIAL_EVENT_POS
    { reason := if truthy reason then reason else none }
  { st2 with
    status := .canceled
    error := cancelErrorUpdate st.error reason
    finishedSet := true }

/-- A workflow execution with its children (the `parent` foreign key is
set at creation and never changed, so the executions form a forest). -/
inductive WfTree where
  | node (st : ExecState) (children : List WfTree)

/-- The execution row at a tree's root. -/
def WfTree.root : WfTree → ExecState
  | .node st _ => st

mutual
/-- Model of `engine.cancel_workflow(execution, reason, cancel_queued)`: a no-op
on terminal executions; otherwise cancels the root and recursively
cancels children whose status is PENDING or RUNNING, with reason
`reason or 'parent_canceled'`. -/
def cancel_workflow (reason : Option String) : WfTree → WfTree
  | .node st cs =>
      if st.status.isTerminal then .node st cs
      else
        let childReason := if truthy reason then reason else some "parent_canceled"
        .node (cancelSelf st reason) (cancelChildren childReason cs)

/-- The loop `for child in WorkflowExecution.objects.filter(parent=...,
status__in=[PENDING, RUNNING]): cancel_workflow(child, ...)`; children
in other statuses are left untouched. -/
def cancelChildren (reason : Option String) : List WfTree → List WfTree
  | [] => []
  | c :: cs =>
      (if c.root.status = .pending ∨ c.root.status = .running then
        cancel_workflow reason c
      else c) :: cancelChildren reason cs
end

/-- The node of a tree at a path of child indices. -/
def getNode : WfTree → List ℕ → Option WfTree
  | t, [] => some t
  | .node _ cs, i :: p =>
      match cs[i]? with
      | some c => getNode c p
      | none => none

/-- A path is *active* when every node it passes through (the endpoint
included) has status PENDING or RUNNING. -/
def activePath : WfTree → List ℕ → Bool
  | _, [] => true
  | .node _ cs, i :: p =>
      match cs[i]? with
      | some c =>
          (c.root.status == .pending || c.root.status == .running) && activePath c p
      | none => false

/-- Substring containment on strings. -/
def strContains (s pat : String) : Prop := pat.data <:+: s.data

instance (s pat : String) : Decidable (strContains s pat) := by
  unfold strContains
  infer_instance

theorem strContains_append_left (x s pat : String) (h : strContains s pat) :
    strContains (x ++ s) pat := by
  unfold strContains at h ⊢
  rw [String.data_append]
  exact h.trans (List.suffix_append x.data s.data).isInfix

theorem cancelChildren_eq_map (reason : Option String) (cs : List WfTree) :
    cancelChildren reason cs
      = cs.map (fun c =>
          if c.root.status = .pending ∨ c.root.status = .running then
            cancel_workflow reason c
          else c) := by
  induction cs with
  | nil => rfl
  | cons c cs ih => rw [cancelChildren, ih, List.map_cons]

theorem cancelErrorUpdate_contains_parent_canceled (old : Option String) :
    ∃ es, cancelErrorUpdate old (some "parent_canceled") = some es ∧
      strContains es "parent_canceled" := by
  have hv : cancelErrorUpdate old (some "parent_canceled")
      = some ((if (old.getD "") ≠ "" then old.getD "" ++ "\n" else "")
          ++ "Canceled: " ++ "parent_canceled") := by
    simp [cancelErrorUpdate, truthy]
  refine ⟨_, hv, ?_⟩
  unfold strContains
  rw [String.data_append]
  exact (List.suffix_append _ _).isInfix

/-- Any active-path descendant of a PENDING/RUNNING tree canceled with
reason `parent_canceled` ends CANCELED with `parent_canceled` in its
error. -/
theorem cancel_parent_canceled_lemma (p : List ℕ) :
    ∀ t : WfTree,
      (t.root.status = .pending ∨ t.root.status = .running) →
      activePath t p = true →
      ∃ d, getNode (cancel_workflow (some "parent_canceled") t) p = some d ∧
        d.root.status = .canceled ∧
        ∃ es, d.root.error = some es ∧ strContains es "parent_canceled" := by
  induction p with
  | nil =>
      rintro ⟨st, cs⟩ hst _
      simp only [WfTree.root] at hst
      have hterm : st.status.isTerminal = false := by
        rcases hst with h | h <;> rw [h] <;> rfl
      rw [cancel_workflow, if_neg (by simp [hterm])]
      refine ⟨_, rfl, ?_, ?_⟩
      · simp [WfTree.root, cancelSelf, appendEvent]
      · simp only [WfTree.root, cancelSelf, appendEvent]
        exact cancelErrorUpdate_contains_parent_canceled st.error
  | cons i p ih =>
      rintro ⟨st, cs⟩ hst hact
      simp only [WfTree.root] at hst
      have hterm : st.status.isTerminal = false := by
        rcases hst with h | h <;> rw [h] <;> rfl
      rw [activePath] at hact
      cases hci : cs[i]? with
      | none => rw [hci] at hact; simp at hact
      | some c =>
          rw [hci] at hact
          simp only [Bool.and_eq_true, Bool.or_eq_true, beq_iff_eq] at hact
          rw [cancel_workflow, if_neg (by simp [hterm])]
          rw [if_pos (by decide : truthy (some "parent_canceled") = true)]
          rw [getNode, cancelChildren_eq_map, List.getElem?_map, hci]
          simp only [Option.map_some']
          rw [if_pos hact.1]
          exact ih c hact.1 hact.2

/-- A root with one PENDING child. -/
def treeA : WfTree := .node { status := .pending } [.node { status := .pending } []]

/-- A root whose child is COMPLETED but whose grandchild is still
PENDING (a parent may complete without waiting for a started child). -/
def treeB : WfTree :=
  .node { status := .pending }
    [.node { status := .completed } [.node { status := .pending } []]]

/-- C2 counterexample: (1) cancelling the root with reason `"stop"`
leaves the child's error `"Canceled: stop"`, which does not contain
`parent_canceled` — the recursion passes `reason or 'parent_canceled'`,
so a non-None root reason replaces `parent_canceled`; (2) with
reason=None, a PENDING grandchild behind a COMPLETED child is a
transitively-reachable non-terminal descendant that stays PENDING — the
recursion only descends into PENDING/RUNNING children. -/
theorem cascading_cancel_counterexample :
    ((getNode (cancel_workflow (some "stop") treeA) [0]).map
        (fun d => (d.root.status, d.root.error)))
      = some (.canceled, some "Canceled: stop") ∧
    ¬ strContains "Canceled: stop" "parent_canceled" ∧
    ((getNode treeB [0, 0]).map (fun d => d.root.status.isTerminal)) = some false ∧
    ((getNode (cancel_workflow none treeB) [0, 0]).map (fun d => d.root.status))
      = some .pending := by
  refine ⟨by decide, by decide, by decide, by decide⟩

/-- C2 (amended): cancelling the root of a workflow tree with
reason=None leaves every descendant reachable from the (non-terminal)
root through a chain of PENDING-or-RUNNING executions in status CANCELED
with an error containing `parent_canceled`. -/
theorem cascading_cancel_spec (t : WfTree) (p : List ℕ)
    (hroot : t.root.status.isTerminal = false)
    (hne : p ≠ [])
    (hact : activePath t p = true) :
    ∃ d, getNode (cancel_workflow none t) p = some d ∧
      d.root.status = .canceled ∧
      ∃ es, d.root.error = some es ∧ strContains es "parent_canceled" := by
  obtain ⟨st, cs⟩ := t
  simp only [WfTree.root] at hroot
  cases p with
  | nil => exact absurd rfl hne
  | cons i p =>
      rw [activePath] at hact
      cases hci : cs[i]? with
      | none => rw [hci] at hact; simp at hact
      | some c =>
          rw [hci] at hact
          simp only [Bool.and_eq_true, Bool.or_eq_true, beq_iff_eq] at hact
          rw [cancel_workflow, if_neg (by simp [hroot])]
          rw [if_neg (by decide : ¬ truthy none = true)]
          rw [getNode, cancelChildren_eq_map, List.getElem?_map, hci]
          simp only [Option.map_some']
          rw [if_pos hact.1]
          exact cancel_parent_canceled_lemma p c hact.1 hact.2

/-- A three-deep chain of active executions. -/
def treeC : WfTree :=
  .node { status := .running }
    [.node { status := .pending } [.node { status := .running } []]]

/-- Witness for the amended C2 on a concrete three-deep active chain. -/
theorem cascading_cancel_spec_witness :
    ∃ d, getNode (cancel_workflow none treeC) [0, 0] = some d ∧
      d.root.status = .canceled ∧
      ∃ es, d.root.error = some es ∧ strContains es "parent_canceled" :=
  cascading_cancel_spec treeC [0, 0] (by decide) (by decide) (by decide)

/-! ## Signal consumption (`engine.Context.wait_signal`) -/

/-- Result of one `wait_signal` call: a payload, or the internal pause. -/
inductive WaitSignalOutcome where
  | payload (v : Option String)
  | suspend
  deriving Repr, DecidableEq

/-- The `consumed_ids` set of `wait_signal`: the `details.enqueued_id`
of every `SIGNAL_CONSUMED` event of the execution. -/
def consumedIds (h : List HistoryEvent) : List (Option Nat) :=
  (h.filter fun e => e.etype == .signal_consumed).map fun e => e.details.enqueued_id

/-- The loop of `wait_signal`: over the `SIGNAL_ENQUEUED` events with
matching `details.name` in id order, the first whose id is not among the
consumed ids. -/
def findUnconsumed (h : List HistoryEvent) (name : String) : Option HistoryEvent :=
  h.find? fun e =>
    e.etype == .signal_enqueued && e.details.name == some name &&
      !((consumedIds h).contains (some e.eid))

/-- Model of `engine.Context.wait_signal` at one replay position: return the
already-consumed payload, else consume the oldest matching enqueued
signal (recording `SIGNAL_CONSUMED` at this pos), else record
`SIGNAL_WAIT` once and pause. -/
def wait_signal (st : ExecState) (pos : Int) (name : String) :
    WaitSignalOutcome × ExecState :=
  match lastWhere st.history (fun e => e.pos == pos && e.etype == .signal_consumed) with
  | some ev => (.payload ev.details.payload, st)
  | none =>
      match findUnconsumed st.history name with
      | some enq =>
          (.payload enq.details.payload,
            appendEvent st .signal_consumed pos
              { name := some name, payload := enq.details.payload,
                enqueued_id := some enq.eid })
      | none =>
          (.suspend,
            if st.history.any (fun e => e.pos == pos && e.etype == .signal_wait) then st
            else appendEvent st .signal_wait pos { name := some name })

/-- Send `k` signals with one name in order (`enqueue_signal` each). -/
def sendSignals (st : ExecState) (name : String) : List (Option String) → ExecState
  | [] => st
  | v :: vs => sendSignals (enqueue_signal st name v) name vs

/-- Run `wait_signal` at successive replay positions `p0, p0+1, …`. -/
def consumeLoop (st : ExecState) (name : String) (p0 : Int) : ℕ → ExecState
  | 0 => st
  | i + 1 => (wait_signal (consumeLoop st name p0 i) (p0 + i) name).2

/-- The `SIGNAL_ENQUEUED` events `sendSignals` appends, ids from `n0`. -/
def enqEvents (n0 : Nat) (name : String) : List (Option String) → List HistoryEvent
  | [] => []
  | v :: vs =>
      ⟨n0, .signal_enqueued, SPECIAL_EVENT_POS, { name := some name, payload := v }⟩
        :: enqEvents (n0 + 1) name vs

/-- The `SIGNAL_CONSUMED` events after `i` consumes: the `j`-th records
the payload of enqueue `n0+j` at replay pos `p0+j`, with id `m0+j`. -/
def consEvents (n0 m0 : Nat) (name : String) (p0 : Int)
    (ps : List (Option String)) : ℕ → List HistoryEvent
  | 0 => []
  | i + 1 =>
      consEvents n0 m0 name p0 ps i ++
        [⟨m0 + i, .signal_consumed, p0 + i,
          { name := some name, payload := ps.getD i none,
            enqueued_id := some (n0 + i) }⟩]

/-- The `consumedIds` list after `i` consumes. -/
def idsUpTo (n0 : Nat) : ℕ → List (Option Nat)
  | 0 => []
  | i + 1 => idsUpTo n0 i ++ [some (n0 + i)]

/-- A history with no signal events at all. -/
def SignalClean (h : List HistoryEvent) : Prop :=
  ∀ e ∈ h, e.etype ≠ .signal_enqueued ∧ e.etype ≠ .signal_consumed ∧
    e.etype ≠ .signal_wait

theorem enqueue_signal_history (st : ExecState) (name : String) (v : Option String) :
    (enqueue_signal st name v).history
        = st.history ++ [⟨st.nextEid, .signal_enqueued, SPECIAL_EVENT_POS,
            { name := some name, payload := v }⟩] ∧
      (enqueue_signal st name v).nextEid = st.nextEid + 1 := by
  simp only [enqueue_signal, appendEvent]
  split <;> exact ⟨rfl, rfl⟩

theorem sendSignals_history (name : String) :
    ∀ (ps : List (Option String)) (st : ExecState),
      (sendSignals st name ps).history = st.history ++ enqEvents st.nextEid name ps ∧
      (sendSignals st name ps).nextEid = st.nextEid + ps.length := by
  intro ps
  induction ps with
  | nil => intro st; simp [sendSignals, enqEvents]
  | cons v vs ih =>
      intro st
      obtain ⟨he, hn⟩ := enqueue_signal_history st name v
      obtain ⟨ih1, ih2⟩ := ih (enqueue_signal st name v)
      rw [sendSignals, ih1, ih2, he, hn]
      constructor
      · rw [List.append_assoc]
        rfl
      · simp [List.length_cons]
        omega

theorem mem_enqEvents (name : String) :
    ∀ (ps : List (Option String)) (n0 : Nat) (e : HistoryEvent),
      e ∈ enqEvents n0 name ps →
        e.etype = .signal_enqueued ∧ ∃ j, j < ps.length ∧ e.eid = n0 + j := by
  intro ps
  induction ps with
  | nil => intro n0 e he; simp [enqEvents] at he
  | cons v vs ih =>
      intro n0 e he
      rw [enqEvents, List.mem_cons] at he
      rcases he with rfl | he
      · exact ⟨rfl, 0, by simp, by simp⟩
      · obtain ⟨h1, j, hj, hjeq⟩ := ih (n0 + 1) e he
        exact ⟨h1, j + 1, by simpa using hj, by omega⟩

theorem mem_consEvents (n0 m0 : Nat) (name : String) (p0 : Int)
    (ps : List (Option String)) :
    ∀ (i : ℕ) (e : HistoryEvent), e ∈ consEvents n0 m0 name p0 ps i →
      ∃ j, j < i ∧
        e = ⟨m0 + j, .signal_consumed, p0 + j,
          { name := some name, payload := ps.getD j none,
            enqueued_id := some (n0 + j) }⟩ := by
  intro i
  induction i with
  | zero => intro e he; simp [consEvents] at he
  | succ i ih =>
      intro e he
      rw [consEvents, List.mem_append, List.mem_singleton] at he
      rcases he with he | rfl
      · obtain ⟨j, hj, hje⟩ := ih e he
        exact ⟨j, by omega, hje⟩
      · exact ⟨i, by omega, rfl⟩

theorem mem_idsUpTo (n0 : Nat) :
    ∀ (i : ℕ) (x : Option Nat), x ∈ idsUpTo n0 i ↔ ∃ j, j < i ∧ x = some (n0 + j) := by
  intro i
  induction i with
  | zero => intro x; simp [idsUpTo]
  | succ i ih =>
      intro x
      rw [idsUpTo, List.mem_append, List.mem_singleton, ih]
      constructor
      · rintro (⟨j, hj, rfl⟩ | rfl)
        · exact ⟨j, by omega, rfl⟩
        · exact ⟨i, by omega, rfl⟩
      · rintro ⟨j, hj, rfl⟩
        rcases Nat.lt_or_ge j i with h | h
        · exact Or.inl ⟨j, h, rfl⟩
        · have : j = i := by omega
          subst this
          exact Or.inr rfl

theorem contains_idsUpTo (n0 i j : Nat) :
    (idsUpTo n0 i).contains (some (n0 + j)) = decide (j < i) := by
  rcases Nat.lt_or_ge j i with h | h
  · rw [decide_eq_true h]
    rw [List.elem_iff]
    rw [mem_idsUpTo]
    exact ⟨j, h, rfl⟩
  · rw [decide_eq_false (by omega)]
    rw [← Bool.not_eq_true, List.elem_iff, mem_idsUpTo]
    rintro ⟨j2, hj2, heq⟩
    have : j = j2 := by
      have := Option.some.inj heq
      omega
    omega

theorem find?_prefix (pr : HistoryEvent → Bool) :
    ∀ (l1 : List HistoryEvent) (x : HistoryEvent) (l2 : List HistoryEvent),
      (∀ e ∈ l1, pr e = false) → pr x = true →
      (l1 ++ x :: l2).find? pr = some x := by
  intro l1
  induction l1 with
  | nil =>
      intro x l2 _ hx
      exact List.find?_cons_of_pos _ hx
  | cons a l ih =>
      intro x l2 hl hx
      rw [List.cons_append, List.find?_cons_of_neg _ (by simp [hl a (by simp)])]
      exact ih x l2 (fun e he => hl e (by simp [he])) hx

theorem enqEvents_split (name : String) :
    ∀ (i : ℕ) (ps : List (Option String)) (n0 : Nat), i < ps.length →
      enqEvents n0 name ps
        = enqEvents n0 name (ps.take i)
          ++ ⟨n0 + i, .signal_enqueued, SPECIAL_EVENT_POS,
              { name := some name, payload := ps.getD i none }⟩
          :: enqEvents (n0 + i + 1) name (ps.drop (i + 1)) := by
  intro i
  induction i with
  | zero =>
      intro ps n0 hi
      cases ps with
      | nil => simp at hi
      | cons v vs => simp [enqEvents]
  | succ i ih =>
      intro ps n0 hi
      cases ps with
      | nil => simp at hi
      | cons v vs =>
          have h1 : n0 + 1 + i = n0 + (i + 1) := by omega
          rw [enqEvents, ih vs (n0 + 1) (by simpa using hi), h1,
            List.take_succ_cons, List.drop_succ_cons, List.getD_cons_succ]
          simp [enqEvents]

theorem consumedIds_composite (B : List HistoryEvent) (hbase : SignalClean B)
    (n0 m0 : Nat) (name : String) (p0 : Int) (ps : List (Option String)) (i : ℕ) :
    consumedIds (B ++ enqEvents n0 name ps ++ consEvents n0 m0 name p0 ps i)
      = idsUpTo n0 i := by
  unfold consumedIds
  rw [List.filter_append, List.filter_append]
  have hB : B.filter (fun e => e.etype == .signal_consumed) = [] :=
    List.filter_eq_nil_iff.mpr (fun e he => by simp [(hbase e he).2.1])
  have hQ : (enqEvents n0 name ps).filter (fun e => e.etype == .signal_consumed)
      = [] :=
    List.filter_eq_nil_iff.mpr (fun e he => by
      simp [(mem_enqEvents name ps n0 e he).1])
  rw [hB, hQ]
  simp only [List.nil_append]
  induction i with
  | zero => rfl
  | succ i ih =>
      rw [consEvents, List.filter_append, List.map_append, ih, idsUpTo]
      rfl

theorem lastWhere_consumed_none (B : List HistoryEvent) (hbase : SignalClean B)
    (n0 m0 : Nat) (name : String) (p0 : Int) (ps : List (Option String)) (i : ℕ) :
    lastWhere (B ++ enqEvents n0 name ps ++ consEvents n0 m0 name p0 ps i)
      (fun e => e.pos == (p0 + (i : Int)) && e.etype == .signal_consumed) = none := by
  unfold lastWhere
  have hf : (B ++ enqEvents n0 name ps ++ consEvents n0 m0 name p0 ps i).filter
      (fun e => e.pos == (p0 + (i : Int)) && e.etype == .signal_consumed) = [] := by
    refine List.filter_eq_nil_iff.mpr ?_
    intro e he
    rw [List.append_assoc, List.mem_append, List.mem_append] at he
    rcases he with he | he | he
    · simp [(hbase e he).2.1]
    · simp [(mem_enqEvents name ps n0 e he).1]
    · obtain ⟨j, hj, rfl⟩ := mem_consEvents n0 m0 name p0 ps i e he
      have : ¬ (p0 + (j : Int) = p0 + (i : Int)) := by omega
      simp [this]
  rw [hf]
  rfl

theorem filter_consEvents_at (n0 m0 : Nat) (name : String) (p0 : Int)
    (ps : List (Option String)) (i : ℕ) :
    ∀ k : ℕ, (consEvents n0 m0 name p0 ps k).filter
        (fun e => e.pos == (p0 + (i : Int)) && e.etype == .signal_consumed)
      = if i < k then
          [⟨m0 + i, .signal_consumed, p0 + i,
            { name := some name, payload := ps.getD i none,
              enqueued_id := some (n0 + i) }⟩]
        else [] := by
  intro k
  induction k with
  | zero => simp [consEvents]
  | succ k ih =>
      rw [consEvents, List.filter_append, ih]
      by_cases hik : k = i
      · subst hik
        rw [if_neg (by omega), if_pos (by omega)]
        simp
      · have hbeq : ((p0 + (k : Int)) == (p0 + (i : Int))) = false := by
          rw [beq_eq_false_iff_ne]
          intro h
          apply hik
          omega
        rcases Nat.lt_or_ge i k with h | h
        · rw [if_pos h, if_pos (by omega)]
          simp [hbeq]
        · rw [if_neg (by omega), if_neg (by omega)]
          simp [hbeq]

theorem lastWhere_consumed_replay (B : List HistoryEvent) (hbase : SignalClean B)
    (n0 m0 : Nat) (name : String) (p0 : Int) (ps : List (Option String))
    (i j : ℕ) (hij : i < j) :
    lastWhere (B ++ enqEvents n0 name ps ++ consEvents n0 m0 name p0 ps j)
      (fun e => e.pos == (p0 + (i : Int)) && e.etype == .signal_consumed)
      = some ⟨m0 + i, .signal_consumed, p0 + i,
          { name := some name, payload := ps.getD i none,
            enqueued_id := some (n0 + i) }⟩ := by
  unfold lastWhere
  rw [List.filter_append, List.filter_append]
  have hB : B.filter (fun e => e.pos == (p0 + (i : Int)) && e.etype == .signal_consumed)
      = [] :=
    List.filter_eq_nil_iff.mpr (fun e he => by simp [(hbase e he).2.1])
  have hQ : (enqEvents n0 name ps).filter
      (fun e => e.pos == (p0 + (i : Int)) && e.etype == .signal_consumed) = [] :=
    List.filter_eq_nil_iff.mpr (fun e he => by
      simp [(mem_enqEvents name ps n0 e he).1])
  rw [hB, hQ, filter_consEvents_at n0 m0 name p0 ps i j, if_pos hij]
  rfl

theorem findUnconsumed_composite (B : List HistoryEvent) (hbase : SignalClean B)
    (n0 m0 : Nat) (name : String) (p0 : Int) (ps : List (Option String)) (i : ℕ)
    (hi : i < ps.length) :
    findUnconsumed (B ++ enqEvents n0 name ps ++ consEvents n0 m0 name p0 ps i) name
      = some ⟨n0 + i, .signal_enqueued, SPECIAL_EVENT_POS,
          { name := some name, payload := ps.getD i none }⟩ := by
  unfold findUnconsumed
  rw [consumedIds_composite B hbase n0 m0 name p0 ps i]
  rw [enqEvents_split name i ps n0 hi]
  rw [show B ++ (enqEvents n0 name (ps.take i)
        ++ ⟨n0 + i, .signal_enqueued, SPECIAL_EVENT_POS,
            { name := some name, payload := ps.getD i none }⟩
        :: enqEvents (n0 + i + 1) name (ps.drop (i + 1)))
      ++ consEvents n0 m0 name p0 ps i
      = (B ++ enqEvents n0 name (ps.take i))
        ++ ⟨n0 + i, .signal_enqueued, SPECIAL_EVENT_POS,
            { name := some name, payload := ps.getD i none }⟩
        :: (enqEvents (n0 + i + 1) name (ps.drop (i + 1))
            ++ consEvents n0 m0 name p0 ps i) from by
    simp [List.append_assoc]]
  refine find?_prefix _ _ _ _ ?_ ?_
  · intro e he
    rw [List.mem_append] at he
    rcases he with he | he
    · simp [(hbase e he).1]
    · obtain ⟨_, j, hj, hje⟩ := mem_enqEvents name (ps.take i) n0 e he
      have hj2 : j < i := by
        have := ps.length_take i
        omega
      rw [hje, contains_idsUpTo n0 i j]
      simp [hj2]
  · rw [contains_idsUpTo n0 i i]
    simp

/-- The execution state after sending `ps` and consuming the first `i`
of them: base history, then the enqueue events, then `i` consume
records. -/
def fifoState (st : ExecState) (name : String) (p0 : Int)
    (ps : List (Option String)) (i : ℕ) : ExecState :=
  { sendSignals st name ps with
    history := st.history ++ enqEvents st.nextEid name ps
        ++ consEvents st.nextEid (st.nextEid + ps.length) name p0 ps i
    nextEid := st.nextEid + ps.length + i }

theorem wait_signal_at_fifoState (st : ExecState) (name : String) (p0 : Int)
    (ps : List (Option String)) (i : ℕ)
    (hbase : SignalClean st.history) (hi : i < ps.length) :
    wait_signal (fifoState st name p0 ps i) (p0 + (i : Int)) name
      = (.payload (ps.getD i none), fifoState st name p0 ps (i + 1)) := by
  unfold wait_signal
  rw [show (fifoState st name p0 ps i).history
      = st.history ++ enqEvents st.nextEid name ps
        ++ consEvents st.nextEid (st.nextEid + ps.length) name p0 ps i from rfl]
  rw [lastWhere_consumed_none st.history hbase st.nextEid
    (st.nextEid + ps.length) name p0 ps i]
  rw [findUnconsumed_composite st.history hbase st.nextEid
    (st.nextEid + ps.length) name p0 ps i hi]
  refine Prod.ext rfl ?_
  show appendEvent (fifoState st name p0 ps i) .signal_consumed (p0 + (i : Int))
      { name := some name, payload := ps.getD i none,
        enqueued_id := some (st.nextEid + i) }
    = fifoState st name p0 ps (i + 1)
  simp [appendEvent, fifoState, consEvents, List.append_assoc]
  omega

theorem wait_signal_replay_fifoState (st : ExecState) (name : String) (p0 : Int)
    (ps : List (Option String)) (i j : ℕ)
    (hbase : SignalClean st.history) (hij : i < j) :
    wait_signal (fifoState st name p0 ps j) (p0 + (i : Int)) name
      = (.payload (ps.getD i none), fifoState st name p0 ps j) := by
  unfold wait_signal
  rw [show (fifoState st name p0 ps j).history
      = st.history ++ enqEvents st.nextEid name ps
        ++ consEvents st.nextEid (st.nextEid + ps.length) name p0 ps j from rfl]
  rw [lastWhere_consumed_replay st.history hbase st.nextEid
    (st.nextEid + ps.length) name p0 ps i j hij]

theorem consumeLoop_eq_fifoState (st : ExecState) (name : String) (p0 : Int)
    (ps : List (Option String)) (hbase : SignalClean st.history) :
    ∀ i, i ≤ ps.length →
      consumeLoop (sendSignals st name ps) name p0 i = fifoState st name p0 ps i := by
  intro i
  induction i with
  | zero =>
      intro _
      obtain ⟨h1, h2⟩ := sendSignals_history name ps st
      rw [consumeLoop, fifoState]
      rw [show consEvents st.nextEid (st.nextEid + ps.length) name p0 ps 0 = []
        from rfl]
      rw [List.append_nil, ← h1, ← h2]
      simp
  | succ i ih =>
      intro hlen
      rw [consumeLoop, ih (by omega),
        wait_signal_at_fifoState st name p0 ps i hbase (by omega)]

/-- C7 (signal FIFO): starting from an execution with no signal events,
after `enqueue_signal`-ing the payloads `ps` under one name in order,
the `i`-th `wait_signal` call (replay positions `p0, p0+1, …`) returns
the `i`-th payload in send order, appends a `SIGNAL_CONSUMED` event at
its position recording that payload and the id of the `i`-th
`SIGNAL_ENQUEUED` event, and any later replay of position `p0+i`
returns the recorded payload again without modifying the state. -/
theorem wait_signal_fifo (st : ExecState) (name : String)
    (ps : List (Option String)) (p0 : Int) (i : ℕ)
    (hbase : SignalClean st.history) (hi : i < ps.length) :
    (wait_signal (consumeLoop (sendSignals st name ps) name p0 i)
        (p0 + (i : Int)) name).1
      = .payload (ps.getD i none) ∧
    (consumeLoop (sendSignals st name ps) name p0 (i + 1)).history
      = (consumeLoop (sendSignals st name ps) name p0 i).history
        ++ [⟨st.nextEid + ps.length + i, .signal_consumed, p0 + (i : Int),
            { name := some name, payload := ps.getD i none,
              enqueued_id := some (st.nextEid + i) }⟩] ∧
    (∀ j, i < j → j ≤ ps.length →
      wait_signal (consumeLoop (sendSignals st name ps) name p0 j)
          (p0 + (i : Int)) name
        = (.payload (ps.getD i none),
            consumeLoop (sendSignals st name ps) name p0 j)) := by
  refine ⟨?_, ?_, ?_⟩
  · rw [consumeLoop_eq_fifoState st name p0 ps hbase i (by omega),
      wait_signal_at_fifoState st name p0 ps i hbase hi]
  · rw [consumeLoop_eq_fifoState st name p0 ps hbase i (by omega),
      consumeLoop_eq_fifoState st name p0 ps hbase (i + 1) (by omega)]
    simp [fifoState, consEvents, List.append_assoc]
  · intro j hij hj
    rw [consumeLoop_eq_fifoState st name p0 ps hbase j hj,
      wait_signal_replay_fifoState st name p0 ps i j hbase hij]

/-- Witness for C7: two signals `"a"`, `"b"` named `"go"` sent to a
fresh execution; the second consume (i = 1) returns `"b"`, and replay
of position 6 after both consumes returns `"b"` again unchanged. -/
theorem wait_signal_fifo_witness :
    (wait_signal (consumeLoop (sendSignals {} "go" [some "a", some "b"]) "go" 5 1)
        (5 + ((1 : ℕ) : Int)) "go").1
      = .payload (some "b") ∧
    wait_signal (consumeLoop (sendSignals {} "go" [some "a", some "b"]) "go" 5 2)
        (5 + ((1 : ℕ) : Int)) "go"
      = (.payload (some "b"),
          consumeLoop (sendSignals {} "go" [some "a", some "b"]) "go" 5 2) := by
  have h := wait_signal_fifo {} "go" [some "a", some "b"] 5 1
    (by intro e he; simp at he) (by norm_num)
  exact ⟨h.1, h.2.2 2 (by norm_num) (by norm_num)⟩

end DjangoDurable
